import Mathlib

/-!
# Shallow embedding of the `QuizRewards` contract

This file embeds the core logic of the `QuizRewards` Solidity contract
(`createQuiz`, `recordQuizCompletion`, `claimNFTReward`, `hasCompletedQuiz`,
`getLeaderboard`, `getPlayerQuizCompletions`) and proves the specification's
claims about it.

Modelling conventions:
* `address` and `string` both become `String`; `address(0)` is `""`.
* `uint256` becomes `Nat` (no arithmetic in the contract can overflow a
  256-bit word on the inputs the claims quantify over: the only arithmetic is
  `_nextTokenId++`).
* Solidity mappings become total functions with the zero value as default,
  exactly matching storage semantics.
* `msg.sender` and `block.timestamp` become explicit parameters of the
  state-changing functions.
* `require(cond, msg)` failure becomes `Except.error msg`; a reverted call
  returns no state, so "changes nothing on failure" is structural.
* The ERC721 base is modelled by the parts `claimNFTReward` touches:
  `_nextTokenId`, the owner of each token (`_safeMint`) and its URI
  (`_setTokenURI`).
-/

structure QuizCompletion where
  player : String
  timestamp : Nat
  score : Nat
  quizId : String
  attempts : Nat
deriving DecidableEq, Repr

structure QuizData where
  title : String
  nftMetadata : String
  exists_ : Bool
deriving DecidableEq, Repr

/-- The zero value of `QuizData`, what an unset mapping slot holds. -/
def defaultQuizData : QuizData :=
  { title := "", nftMetadata := "", exists_ := false }

/-- The zero value of `QuizCompletion`, what an unset mapping slot holds. -/
def defaultCompletion : QuizCompletion :=
  { player := "", timestamp := 0, score := 0, quizId := "", attempts := 0 }

/-- The contract storage: `_nextTokenId`, the three declared state variables
(`quizzes`, `quizCompletions`, `allCompletions`) and the inherited ERC721
token state touched by `_safeMint` / `_setTokenURI`. -/
structure LedgerState where
  nextTokenId : Nat
  quizzes : String → QuizData
  quizCompletions : String → String → QuizCompletion
  allCompletions : List QuizCompletion
  owners : Nat → Option String
  tokenURIs : Nat → String

/-- Storage right after the constructor: every mapping slot zero, empty array. -/
def initState : LedgerState :=
  { nextTokenId := 0
    quizzes := fun _ => defaultQuizData
    quizCompletions := fun _ _ => defaultCompletion
    allCompletions := []
    owners := fun _ => none
    tokenURIs := fun _ => "" }

/-- `createQuiz(quizId, title, nftMetadata)`:
`require(!quizzes[quizId].exists, "Quiz already exists")`, then stores the
new `QuizData` with the existence flag set and emits `QuizCreated`. -/
def createQuiz (s : LedgerState) (quizId title nftMetadata : String) :
    Except String LedgerState :=
  if (s.quizzes quizId).exists_ then
    .error "Quiz already exists"
  else
    .ok { s with quizzes := fun id =>
            if id = quizId then
              { title := title, nftMetadata := nftMetadata, exists_ := true }
            else s.quizzes id }

/-- `recordQuizCompletion(quizId, score, attempts)` called by `sender` in a
block with timestamp `blockTimestamp`:
`require(quizzes[quizId].exists, "Quiz does not exist")`, builds the
completion record, overwrites `quizCompletions[msg.sender][quizId]` and pushes
it onto `allCompletions`. -/
def recordQuizCompletion (s : LedgerState) (sender : String)
    (blockTimestamp : Nat) (quizId : String) (score attempts : Nat) :
    Except String LedgerState :=
  if (s.quizzes quizId).exists_ then
    let newCompletion : QuizCompletion :=
      { player := sender, timestamp := blockTimestamp, score := score,
        quizId := quizId, attempts := attempts }
    .ok { s with
      quizCompletions := fun p q =>
        if p = sender ∧ q = quizId then newCompletion
        else s.quizCompletions p q
      allCompletions := s.allCompletions ++ [newCompletion] }
  else
    .error "Quiz does not exist"

/-- `claimNFTReward(quizId)` called by `sender`:
`require(quizzes[quizId].exists, ...)`, then
`require(quizCompletions[msg.sender][quizId].timestamp > 0, ...)`, then mints
token `_nextTokenId++` to the caller and sets its URI to the quiz's
`nftMetadata`. The returned `Nat` is the `tokenId` carried by the emitted
`NFTRewardClaimed` event. -/
def claimNFTReward (s : LedgerState) (sender quizId : String) :
    Except String (LedgerState × Nat) :=
  if (s.quizzes quizId).exists_ then
    if (s.quizCompletions sender quizId).timestamp > 0 then
      .ok ({ s with
        nextTokenId := s.nextTokenId + 1
        owners := fun t =>
          if t = s.nextTokenId then some sender else s.owners t
        tokenURIs := fun t =>
          if t = s.nextTokenId then (s.quizzes quizId).nftMetadata
          else s.tokenURIs t },
        s.nextTokenId)
    else
      .error "Quiz not completed by user"
  else
    .error "Quiz does not exist"

/-- `hasCompletedQuiz(user, quizId)`:
`quizCompletions[user][quizId].timestamp > 0`. -/
def hasCompletedQuiz (s : LedgerState) (user quizId : String) : Bool :=
  decide ((s.quizCompletions user quizId).timestamp > 0)

/-- `getLeaderboard(quizId)`: the source counts the entries of
`allCompletions` whose `quizId` hashes (keccak256 of the abi-packed string)
equal to the argument's, then copies them in scan order into a fresh array.
keccak over the packed bytes of a single string is injective on strings, so
the hash comparison is string equality, and count-then-copy in scan order is
`List.filter`. -/
def getLeaderboard (s : LedgerState) (quizId : String) : List QuizCompletion :=
  s.allCompletions.filter (fun c => c.quizId == quizId)

/-- `getPlayerQuizCompletions(player)`: same count-then-copy loop pair as
`getLeaderboard`, filtering on `allCompletions[i].player == player`. -/
def getPlayerQuizCompletions (s : LedgerState) (player : String) :
    List QuizCompletion :=
  s.allCompletions.filter (fun c => c.player == player)

/-- One successful public state-changing call of the contract
(`checkIn` only emits an event and is identity on storage, so it is omitted;
a reverted call leaves storage unchanged and is covered by reflexivity). -/
inductive Step : LedgerState → LedgerState → Prop
  | create (s s' : LedgerState) (quizId title nftMetadata : String)
      (h : createQuiz s quizId title nftMetadata = .ok s') : Step s s'
  | record (s s' : LedgerState) (sender : String) (blockTimestamp : Nat)
      (quizId : String) (score attempts : Nat)
      (h : recordQuizCompletion s sender blockTimestamp quizId score attempts
            = .ok s') : Step s s'
  | claim (s s' : LedgerState) (sender quizId : String) (tokenId : Nat)
      (h : claimNFTReward s sender quizId = .ok (s', tokenId)) : Step s s'

/-- Contract states reachable from the freshly deployed contract. -/
def Reachable (s : LedgerState) : Prop :=
  Relation.ReflTransGen Step initState s

/-- The storage produced by the success branch of `recordQuizCompletion`. -/
def recordState (s : LedgerState) (sender : String) (blockTimestamp : Nat)
    (quizId : String) (score attempts : Nat) : LedgerState :=
  { s with
    quizCompletions := fun p q =>
      if p = sender ∧ q = quizId then
        { player := sender, timestamp := blockTimestamp, score := score,
          quizId := quizId, attempts := attempts }
      else s.quizCompletions p q
    allCompletions := s.allCompletions ++
      [{ player := sender, timestamp := blockTimestamp, score := score,
         quizId := quizId, attempts := attempts }] }

/-- The storage produced by the success branch of `claimNFTReward`. -/
def mintState (s : LedgerState) (sender quizId : String) : LedgerState :=
  { s with
    nextTokenId := s.nextTokenId + 1
    owners := fun t =>
      if t = s.nextTokenId then some sender else s.owners t
    tokenURIs := fun t =>
      if t = s.nextTokenId then (s.quizzes quizId).nftMetadata
      else s.tokenURIs t }

/-- Extract the new storage of a successful call, falling back to `d`. -/
def getOk (r : Except String LedgerState) (d : LedgerState) : LedgerState :=
  match r with
  | .ok s => s
  | .error _ => d

/-- Extract the new storage and token id of a successful claim. -/
def getOkPair (r : Except String (LedgerState × Nat)) (d : LedgerState × Nat) :
    LedgerState × Nat :=
  match r with
  | .ok p => p
  | .error _ => d

/-! Concrete scenario A: quiz `"q1"` created, player `"A"` records a
completion with score `0` at block timestamp `5`, then claims. -/

def stA1 : LedgerState := getOk (createQuiz initState "q1" "T" "M") initState

def stA2 : LedgerState :=
  getOk (recordQuizCompletion stA1 "A" 5 "q1" 0 1) stA1

def stA3 : LedgerState :=
  (getOkPair (claimNFTReward stA2 "A" "q1") (stA2, 0)).1

/-! Concrete scenario B (the specification's §8 scenario): quiz `"q1"` titled
`"Intro"` created, player `"A"` records a completion with score `3` at block
timestamp `100`, then claims twice. -/

def stB1 : LedgerState :=
  getOk (createQuiz initState "q1" "Intro" "ipfs://intro-nft") initState

def stB2 : LedgerState :=
  getOk (recordQuizCompletion stB1 "A" 100 "q1" 3 1) stB1

def stB3 : LedgerState :=
  (getOkPair (claimNFTReward stB2 "A" "q1") (stB2, 0)).1

def stB4 : LedgerState :=
  (getOkPair (claimNFTReward stB3 "A" "q1") (stB3, 0)).1

/-- The history is chronological: `allCompletions` is ordered by weakly
increasing block timestamp (true of every on-chain trace, since block
timestamps never decrease; not forced by the contract itself). -/
def chronological (s : LedgerState) : Prop :=
  s.allCompletions.Pairwise (fun a b => a.timestamp ≤ b.timestamp)

/-- The current-completion mapping agrees with the history: whenever
`quizCompletions[p][q]` holds a real record (non-zero timestamp), it is the
most recently appended `allCompletions` entry for the pair `(p, q)`. -/
def currentMatchesHistory (s : LedgerState) : Prop :=
  ∀ p q : String, 0 < (s.quizCompletions p q).timestamp →
    (s.allCompletions.filter
        (fun c => c.player == p && c.quizId == q)).getLast?
      = some (s.quizCompletions p q)

/-! ## Inversion lemmas for successful calls -/

theorem createQuiz_ok_inv {s s' : LedgerState} {quizId title nftMetadata : String}
    (h : createQuiz s quizId title nftMetadata = .ok s') :
    (s.quizzes quizId).exists_ = false ∧
    s'.nextTokenId = s.nextTokenId ∧
    s'.quizzes = (fun id =>
      if id = quizId then
        { title := title, nftMetadata := nftMetadata, exists_ := true }
      else s.quizzes id) ∧
    s'.quizCompletions = s.quizCompletions ∧
    s'.allCompletions = s.allCompletions ∧
    s'.owners = s.owners ∧
    s'.tokenURIs = s.tokenURIs := by
  unfold createQuiz at h
  split at h
  · exact absurd h (by simp)
  · cases h
    refine ⟨by simp_all, rfl, rfl, rfl, rfl, rfl, rfl⟩

theorem recordQuizCompletion_ok_inv {s s' : LedgerState} {sender : String}
    {blockTimestamp : Nat} {quizId : String} {score attempts : Nat}
    (h : recordQuizCompletion s sender blockTimestamp quizId score attempts
          = .ok s') :
    (s.quizzes quizId).exists_ = true ∧
    s'.nextTokenId = s.nextTokenId ∧
    s'.quizzes = s.quizzes ∧
    s'.quizCompletions = (fun p q =>
      if p = sender ∧ q = quizId then
        { player := sender, timestamp := blockTimestamp, score := score,
          quizId := quizId, attempts := attempts }
      else s.quizCompletions p q) ∧
    s'.allCompletions = s.allCompletions ++
      [{ player := sender, timestamp := blockTimestamp, score := score,
         quizId := quizId, attempts := attempts }] ∧
    s'.owners = s.owners ∧
    s'.tokenURIs = s.tokenURIs := by
  unfold recordQuizCompletion at h
  split at h
  · cases h
    refine ⟨by assumption, rfl, rfl, rfl, rfl, rfl, rfl⟩
  · exact absurd h (by simp)

theorem claimNFTReward_ok_inv {s s' : LedgerState} {sender quizId : String}
    {tokenId : Nat}
    (h : claimNFTReward s sender quizId = .ok (s', tokenId)) :
    (s.quizzes quizId).exists_ = true ∧
    0 < (s.quizCompletions sender quizId).timestamp ∧
    tokenId = s.nextTokenId ∧
    s'.nextTokenId = s.nextTokenId + 1 ∧
    s'.quizzes = s.quizzes ∧
    s'.quizCompletions = s.quizCompletions ∧
    s'.allCompletions = s.allCompletions ∧
    s'.owners = (fun t =>
      if t = s.nextTokenId then some sender else s.owners t) ∧
    s'.tokenURIs = (fun t =>
      if t = s.nextTokenId then (s.quizzes quizId).nftMetadata
      else s.tokenURIs t) := by
  unfold claimNFTReward at h
  split at h
  · split at h
    · cases h
      refine ⟨by assumption, by assumption, rfl, rfl, rfl, rfl, rfl, rfl, rfl⟩
    · exact absurd h (by simp)
  · exact absurd h (by simp)

/-! ## Success equations -/

theorem recordQuizCompletion_ok_of {s : LedgerState} {sender : String}
    {blockTimestamp : Nat} {quizId : String} {score attempts : Nat}
    (hq : (s.quizzes quizId).exists_ = true) :
    recordQuizCompletion s sender blockTimestamp quizId score attempts
      = .ok (recordState s sender blockTimestamp quizId score attempts) := by
  unfold recordQuizCompletion recordState
  rw [if_pos hq]

theorem claimNFTReward_ok_of {s : LedgerState} {sender quizId : String}
    (hq : (s.quizzes quizId).exists_ = true)
    (hc : 0 < (s.quizCompletions sender quizId).timestamp) :
    claimNFTReward s sender quizId = .ok (mintState s sender quizId, s.nextTokenId) := by
  unfold claimNFTReward mintState
  rw [if_pos hq, if_pos hc]

/-! ## Claim C1 -/

/-- C1 (counterexample): the claim "a `claimNFTReward` call succeeds only if
the caller's current completion has a non-zero score" is false. In the
concrete run of scenario A, player `"A"` records score `0` for quiz `"q1"`;
the current completion has score `0`, yet the claim succeeds and mints
token `0`, because the contract only checks `timestamp > 0`. -/
theorem claimNFTReward_accepts_zero_score :
    createQuiz initState "q1" "T" "M" = .ok stA1
    ∧ recordQuizCompletion stA1 "A" 5 "q1" 0 1 = .ok stA2
    ∧ (stA2.quizCompletions "A" "q1").score = 0
    ∧ claimNFTReward stA2 "A" "q1" = .ok (stA3, 0) :=
  ⟨rfl, rfl, rfl, rfl⟩

/-- C1 (amended): for every state, player and existing quiz, a
`claimNFTReward` call succeeds exactly when the quiz exists and the caller's
current completion record has a non-zero timestamp, i.e. some completion was
recorded; the completion's score is not consulted, so a zero-score completion
also permits the claim. -/
theorem claimNFTReward_ok_iff (s : LedgerState) (sender quizId : String) :
    (∃ r, claimNFTReward s sender quizId = .ok r) ↔
    ((s.quizzes quizId).exists_ = true
      ∧ 0 < (s.quizCompletions sender quizId).timestamp) := by
  constructor
  · rintro ⟨⟨s', tokenId⟩, h⟩
    have h' := claimNFTReward_ok_inv h
    exact ⟨h'.1, h'.2.1⟩
  · rintro ⟨hq, hc⟩
    exact ⟨_, claimNFTReward_ok_of hq hc⟩

/-! ## Claim C2 -/

/-- C2: for an existing quiz, a claim by a caller whose current completion
slot is still zero (timestamp `0`) is rejected with
`"Quiz not completed by user"`; and a caller who has completed the quiz can
claim twice in a row, the two calls minting the two distinct consecutive
token ids `nextTokenId` and `nextTokenId + 1` (so `0` and `1` on a fresh
deployment). -/
theorem claimNFTReward_reject_and_double_mint (s : LedgerState)
    (sender quizId : String)
    (hq : (s.quizzes quizId).exists_ = true) :
    ((s.quizCompletions sender quizId).timestamp = 0 →
      claimNFTReward s sender quizId = .error "Quiz not completed by user")
    ∧ (0 < (s.quizCompletions sender quizId).timestamp →
      ∃ s₁ s₂, claimNFTReward s sender quizId = .ok (s₁, s.nextTokenId)
        ∧ claimNFTReward s₁ sender quizId = .ok (s₂, s.nextTokenId + 1)
        ∧ s.nextTokenId ≠ s.nextTokenId + 1) := by
  constructor
  · intro h0
    unfold claimNFTReward
    rw [if_pos hq, if_neg (by simp [h0])]
  · intro hc
    refine ⟨mintState s sender quizId,
      mintState (mintState s sender quizId) sender quizId,
      claimNFTReward_ok_of hq hc, ?_, by omega⟩
    have hq' : ((mintState s sender quizId).quizzes quizId).exists_ = true := hq
    have hc' : 0 < ((mintState s sender quizId).quizCompletions sender
        quizId).timestamp := hc
    exact claimNFTReward_ok_of hq' hc'

/-- C2 (witness): on the concrete scenario-B state `stB2` (fresh deployment,
quiz `"q1"` created, one completion by `"A"`), the rejection branch and the
double mint of token ids `0` and `1` are both realized. -/
theorem claimNFTReward_reject_and_double_mint_witness :
    ((stB2.quizCompletions "A" "q1").timestamp = 0 →
      claimNFTReward stB2 "A" "q1" = .error "Quiz not completed by user")
    ∧ (0 < (stB2.quizCompletions "A" "q1").timestamp →
      ∃ s₁ s₂, claimNFTReward stB2 "A" "q1" = .ok (s₁, 0)
        ∧ claimNFTReward s₁ "A" "q1" = .ok (s₂, 0 + 1)
        ∧ 0 ≠ 0 + 1) :=
  claimNFTReward_reject_and_double_mint stB2 "A" "q1" rfl

/-! ## Claim C5 -/

/-- C5: creating a quiz and then creating it again under the same id rejects
the second call with `"Quiz already exists"`, and the stored record still
holds the first call's title and metadata. -/
theorem createQuiz_duplicate_rejected (s s₁ : LedgerState)
    (quizId title1 meta1 title2 meta2 : String)
    (h : createQuiz s quizId title1 meta1 = .ok s₁) :
    createQuiz s₁ quizId title2 meta2 = .error "Quiz already exists"
    ∧ s₁.quizzes quizId =
      { title := title1, nftMetadata := meta1, exists_ := true } := by
  obtain ⟨-, -, hquiz, -⟩ := createQuiz_ok_inv h
  have hstored : s₁.quizzes quizId =
      { title := title1, nftMetadata := meta1, exists_ := true } := by
    rw [hquiz]; simp
  refine ⟨?_, hstored⟩
  unfold createQuiz
  rw [if_pos (by rw [hstored])]

/-- C5 (witness): concretely, re-creating `"q1"` on top of `stB1` is rejected
and the record keeps the first call's `"Intro"` title and metadata. -/
theorem createQuiz_duplicate_rejected_witness :
    createQuiz stB1 "q1" "Other" "ipfs://other" = .error "Quiz already exists"
    ∧ stB1.quizzes "q1" =
      { title := "Intro", nftMetadata := "ipfs://intro-nft", exists_ := true } :=
  createQuiz_duplicate_rejected initState stB1 "q1" "Intro" "ipfs://intro-nft"
    "Other" "ipfs://other" rfl

/-! ## Claim C6 -/

/-- C6: recording a completion against a quiz id with no existing quiz record
rejects with `"Quiz does not exist"`. In the `Except` embedding a rejected
call returns no storage at all, so no current-completion slot is written and
no history entry is appended. -/
theorem recordQuizCompletion_notFound (s : LedgerState) (sender : String)
    (blockTimestamp : Nat) (quizId : String) (score attempts : Nat)
    (h : (s.quizzes quizId).exists_ = false) :
    recordQuizCompletion s sender blockTimestamp quizId score attempts
      = .error "Quiz does not exist" := by
  unfold recordQuizCompletion
  rw [if_neg (by simp [h])]

/-- C6 (witness): on the fresh deployment, recording against the missing quiz
id `"missing-quiz"` is rejected. -/
theorem recordQuizCompletion_notFound_witness :
    recordQuizCompletion initState "A" 7 "missing-quiz" 3 1
      = .error "Quiz does not exist" :=
  recordQuizCompletion_notFound initState "A" 7 "missing-quiz" 3 1 rfl

/-! ## Claim C10 -/

/-- C10: a successful `claimNFTReward` leaves the quiz table, every
current-completion slot and the full history untouched; it changes only the
token state: the minted id is the old `_nextTokenId`, the counter advances by
one, the new token is owned by the caller and carries the quiz's metadata
URI, and every other token's owner and URI are unchanged. (A rejected call
reverts and returns no storage in this embedding, so it changes nothing by
construction.) -/
theorem claimNFTReward_frame (s : LedgerState) (sender quizId : String)
    (s' : LedgerState) (tokenId : Nat)
    (h : claimNFTReward s sender quizId = .ok (s', tokenId)) :
    s'.quizzes = s.quizzes
    ∧ s'.quizCompletions = s.quizCompletions
    ∧ s'.allCompletions = s.allCompletions
    ∧ tokenId = s.nextTokenId
    ∧ s'.nextTokenId = s.nextTokenId + 1
    ∧ s'.owners tokenId = some sender
    ∧ s'.tokenURIs tokenId = (s.quizzes quizId).nftMetadata
    ∧ (∀ t, t ≠ tokenId →
        s'.owners t = s.owners t ∧ s'.tokenURIs t = s.tokenURIs t) := by
  obtain ⟨hq, hc, htid, hnext, hqz, hcmp, hall, how, huri⟩ :=
    claimNFTReward_ok_inv h
  subst htid
  refine ⟨hqz, hcmp, hall, rfl, hnext, ?_, ?_, ?_⟩
  · rw [how]; simp
  · rw [huri]; simp
  · intro t ht
    rw [how, huri]
    simp [ht]

/-- C10 (witness): the frame property realized on the concrete successful
claim `stB2 → stB3` minting token `0`. -/
theorem claimNFTReward_frame_witness :
    stB3.quizzes = stB2.quizzes
    ∧ stB3.quizCompletions = stB2.quizCompletions
    ∧ stB3.allCompletions = stB2.allCompletions
    ∧ 0 = stB2.nextTokenId
    ∧ stB3.nextTokenId = stB2.nextTokenId + 1
    ∧ stB3.owners 0 = some "A"
    ∧ stB3.tokenURIs 0 = (stB2.quizzes "q1").nftMetadata
    ∧ (∀ t, t ≠ 0 →
        stB3.owners t = stB2.owners t ∧ stB3.tokenURIs t = stB2.tokenURIs t) :=
  claimNFTReward_frame stB2 "A" "q1" stB3 0 rfl

/-! ## Claim C4 -/

/-- C4: two successive `recordQuizCompletion` calls by the same player for
the same existing quiz both succeed; `hasCompletedQuiz` is true after either;
the current completion slot afterwards holds exactly the second submission;
and the player's history gains both submissions as two distinct entries, in
submission order, after whatever was already there. -/
theorem recordQuizCompletion_twice (s : LedgerState) (p q : String)
    (t1 sc1 a1 t2 sc2 a2 : Nat)
    (hq : (s.quizzes q).exists_ = true) (ht1 : 0 < t1) (ht2 : 0 < t2) :
    ∃ s₁ s₂,
      recordQuizCompletion s p t1 q sc1 a1 = .ok s₁
      ∧ recordQuizCompletion s₁ p t2 q sc2 a2 = .ok s₂
      ∧ hasCompletedQuiz s₁ p q = true
      ∧ hasCompletedQuiz s₂ p q = true
      ∧ s₂.quizCompletions p q =
          { player := p, timestamp := t2, score := sc2, quizId := q,
            attempts := a2 }
      ∧ getPlayerQuizCompletions s₂ p =
          getPlayerQuizCompletions s p ++
          [{ player := p, timestamp := t1, score := sc1, quizId := q,
             attempts := a1 },
           { player := p, timestamp := t2, score := sc2, quizId := q,
             attempts := a2 }] := by
  have hq1 : ((recordState s p t1 q sc1 a1).quizzes q).exists_ = true := hq
  refine ⟨recordState s p t1 q sc1 a1,
    recordState (recordState s p t1 q sc1 a1) p t2 q sc2 a2,
    recordQuizCompletion_ok_of hq, recordQuizCompletion_ok_of hq1,
    ?_, ?_, ?_, ?_⟩
  · simp [hasCompletedQuiz, recordState, ht1]
  · simp [hasCompletedQuiz, recordState, ht2]
  · simp [recordState]
  · simp [getPlayerQuizCompletions, recordState, List.filter_append]

/-- C4 (witness): the double submission realized from the concrete state
`stB1` (quiz `"q1"` exists, empty history), with submissions
`(score 3, attempts 1)` at time `100` and `(score 2, attempts 2)` at
time `150`. -/
theorem recordQuizCompletion_twice_witness :
    ∃ s₁ s₂,
      recordQuizCompletion stB1 "A" 100 "q1" 3 1 = .ok s₁
      ∧ recordQuizCompletion s₁ "A" 150 "q1" 2 2 = .ok s₂
      ∧ hasCompletedQuiz s₁ "A" "q1" = true
      ∧ hasCompletedQuiz s₂ "A" "q1" = true
      ∧ s₂.quizCompletions "A" "q1" =
          { player := "A", timestamp := 150, score := 2, quizId := "q1",
            attempts := 2 }
      ∧ getPlayerQuizCompletions s₂ "A" =
          getPlayerQuizCompletions stB1 "A" ++
          [{ player := "A", timestamp := 100, score := 3, quizId := "q1",
             attempts := 1 },
           { player := "A", timestamp := 150, score := 2, quizId := "q1",
             attempts := 2 }] :=
  recordQuizCompletion_twice stB1 "A" "q1" 100 3 1 150 2 2 rfl
    (by decide) (by decide)

/-! ## Claim C8 -/

/-- C8: `getPlayerQuizCompletions(player)` returns exactly the history
entries whose `player` field equals the argument, across all quizzes: the
result is an order-preserving sublist of `allCompletions` (original recording
order), every returned entry belongs to the player, and every matching entry
of the history appears with its full multiplicity (no deduplication of
repeated completions). -/
theorem getPlayerQuizCompletions_spec (s : LedgerState) (player : String) :
    List.Sublist (getPlayerQuizCompletions s player) s.allCompletions
    ∧ (∀ c ∈ getPlayerQuizCompletions s player, c.player = player)
    ∧ (∀ c : QuizCompletion, c.player = player →
        (getPlayerQuizCompletions s player).count c
          = s.allCompletions.count c) := by
  refine ⟨List.filter_sublist _, ?_, ?_⟩
  · intro c hc
    have h := List.mem_filter.mp hc
    simpa using h.2
  · intro c hcp
    exact List.count_filter (by simp [hcp])

/-! ## Claim C3 -/

/-- C3 (counterexample): the claim "`getLeaderboard(q)` returns only entries
with `score > 0`" is false. In the concrete run of scenario A, player `"A"`
records a completion of quiz `"q1"` with score `0`, and `getLeaderboard`
returns that zero-score entry. -/
theorem getLeaderboard_includes_zero_score :
    createQuiz initState "q1" "T" "M" = .ok stA1
    ∧ recordQuizCompletion stA1 "A" 5 "q1" 0 1 = .ok stA2
    ∧ getLeaderboard stA2 "q1" =
        [{ player := "A", timestamp := 5, score := 0, quizId := "q1",
           attempts := 1 }] :=
  ⟨rfl, rfl, rfl⟩

/-- C3 (amended): `getLeaderboard(q)` returns exactly the history entries
whose `quizId` equals `q` under exact string match — regardless of score, so
zero-score entries are included — as an order-preserving sublist of the
history (append order, hence weakly ascending timestamps whenever the history
is chronological, as every on-chain trace is), with full multiplicity; and on
a state with no completion for `q` it returns the empty sequence without
error. -/
theorem getLeaderboard_spec (s : LedgerState) (quizId : String)
    (hchron : chronological s) :
    List.Sublist (getLeaderboard s quizId) s.allCompletions
    ∧ (∀ c ∈ getLeaderboard s quizId, c.quizId = quizId)
    ∧ (∀ c : QuizCompletion, c.quizId = quizId →
        (getLeaderboard s quizId).count c = s.allCompletions.count c)
    ∧ (getLeaderboard s quizId).Pairwise (fun a b => a.timestamp ≤ b.timestamp)
    ∧ ((∀ c ∈ s.allCompletions, c.quizId ≠ quizId) →
        getLeaderboard s quizId = []) := by
  unfold chronological at hchron
  refine ⟨List.filter_sublist _, ?_, ?_, ?_, ?_⟩
  · intro c hc
    have h := List.mem_filter.mp hc
    simpa using h.2
  · intro c hcq
    exact List.count_filter (by simp [hcq])
  · exact hchron.sublist (List.filter_sublist _)
  · intro hnone
    refine List.filter_eq_nil_iff.mpr ?_
    intro c hc
    simp [hnone c hc]

/-- C3 (witness): the amended leaderboard property realized on the concrete
state `stA2`, whose single-entry history is trivially chronological. -/
theorem getLeaderboard_spec_witness :
    List.Sublist (getLeaderboard stA2 "q1") stA2.allCompletions
    ∧ (∀ c ∈ getLeaderboard stA2 "q1", c.quizId = "q1")
    ∧ (∀ c : QuizCompletion, c.quizId = "q1" →
        (getLeaderboard stA2 "q1").count c = stA2.allCompletions.count c)
    ∧ (getLeaderboard stA2 "q1").Pairwise (fun a b => a.timestamp ≤ b.timestamp)
    ∧ ((∀ c ∈ stA2.allCompletions, c.quizId ≠ "q1") →
        getLeaderboard stA2 "q1" = []) :=
  getLeaderboard_spec stA2 "q1" (by
    unfold chronological
    rw [show stA2.allCompletions =
      [{ player := "A", timestamp := 5, score := 0, quizId := "q1",
         attempts := 1 }] from rfl]
    simp)

/-! ## Claim C7 -/

theorem step_preserves_existing_quiz {s s' : LedgerState} (hs : Step s s')
    (quizId : String) (hq : (s.quizzes quizId).exists_ = true) :
    s'.quizzes quizId = s.quizzes quizId := by
  cases hs with
  | create qid title meta h =>
      obtain ⟨hfree, -, hquiz, -⟩ := createQuiz_ok_inv h
      rw [hquiz]
      by_cases hid : quizId = qid
      · subst hid
        rw [hq] at hfree
        cases hfree
      · simp [hid]
  | record sender bt qid sc att h =>
      obtain ⟨-, -, hquiz, -⟩ := recordQuizCompletion_ok_inv h
      rw [hquiz]
  | claim sender qid tokenId h =>
      obtain ⟨-, -, -, -, hquiz, -⟩ := claimNFTReward_ok_inv h
      rw [hquiz]

/-- C7: every `(quizId, title, nftMetadata)` accepted by `createQuiz` is
stored verbatim, and the stored record survives unchanged through every
subsequent sequence of successful operations — no later `createQuiz`,
`recordQuizCompletion` or `claimNFTReward` ever modifies or deletes it. -/
theorem createQuiz_roundtrip (s s' : LedgerState)
    (quizId title nftMetadata : String)
    (h : createQuiz s quizId title nftMetadata = .ok s')
    (s'' : LedgerState) (hr : Relation.ReflTransGen Step s' s'') :
    s''.quizzes quizId =
      { title := title, nftMetadata := nftMetadata, exists_ := true } := by
  have base : s'.quizzes quizId =
      { title := title, nftMetadata := nftMetadata, exists_ := true } := by
    obtain ⟨-, -, hquiz, -⟩ := createQuiz_ok_inv h
    rw [hquiz]
    simp
  induction hr with
  | refl => exact base
  | tail hab hbc ih =>
      rw [step_preserves_existing_quiz hbc quizId (by rw [ih]), ih]

/-- C7 (witness): the quiz record of `"q1"` created in `stB1` is intact in
`stB2`, one recorded completion later. -/
theorem createQuiz_roundtrip_witness :
    stB2.quizzes "q1" =
      { title := "Intro", nftMetadata := "ipfs://intro-nft", exists_ := true } :=
  createQuiz_roundtrip initState stB1 "q1" "Intro" "ipfs://intro-nft" rfl stB2
    (Relation.ReflTransGen.single (Step.record stB1 stB2 "A" 100 "q1" 3 1 rfl))

/-! ## Claim C9 -/

theorem step_preserves_currentMatchesHistory {s s' : LedgerState}
    (hs : Step s s') (hinv : currentMatchesHistory s) :
    currentMatchesHistory s' := by
  cases hs with
  | create qid title meta h =>
      obtain ⟨-, -, -, hcmp, hall, -⟩ := createQuiz_ok_inv h
      intro p q hpq
      rw [hcmp] at hpq
      rw [hcmp, hall]
      exact hinv p q hpq
  | claim sender qid tokenId h =>
      obtain ⟨-, -, -, -, -, hcmp, hall, -⟩ := claimNFTReward_ok_inv h
      intro p q hpq
      rw [hcmp] at hpq
      rw [hcmp, hall]
      exact hinv p q hpq
  | record sender bt qid sc att h =>
      obtain ⟨-, -, -, hcmp, hall, -⟩ := recordQuizCompletion_ok_inv h
      intro p q hpq
      simp only [hcmp, hall] at hpq ⊢
      by_cases hmatch : p = sender ∧ q = qid
      · obtain ⟨hp, hq⟩ := hmatch
        subst hp
        subst hq
        simp
      · rw [if_neg hmatch] at hpq ⊢
        have h1 : ¬(sender = p ∧ qid = q) := fun hc =>
          hmatch ⟨hc.1.symm, hc.2.symm⟩
        rw [List.filter_append]
        simp only [List.filter_cons, List.filter_nil]
        rw [if_neg (by simpa using h1)]
        simp only [List.append_nil]
        exact hinv p q hpq

/-- C9: in every reachable state, each (player, quiz) pair whose
current-completion slot holds a real record (non-zero timestamp) holds
exactly the most recently appended history entry for that pair; and every
operation only ever appends to the history, so all earlier history entries
survive every step unmodified. -/
theorem reachable_currentMatchesHistory (s : LedgerState) (h : Reachable s) :
    currentMatchesHistory s
    ∧ ∀ s', Step s s' → ∃ l, s'.allCompletions = s.allCompletions ++ l := by
  constructor
  · unfold Reachable at h
    induction h with
    | refl =>
        intro p q hpq
        exact (Nat.lt_irrefl 0 hpq).elim
    | tail hab hbc ih => exact step_preserves_currentMatchesHistory hbc ih
  · intro s' hs
    cases hs with
    | create qid title meta h' =>
        obtain ⟨-, -, -, -, hall, -⟩ := createQuiz_ok_inv h'
        exact ⟨[], by rw [hall, List.append_nil]⟩
    | record sender bt qid sc att h' =>
        obtain ⟨-, -, -, -, hall, -⟩ := recordQuizCompletion_ok_inv h'
        exact ⟨_, hall⟩
    | claim sender qid tokenId h' =>
        obtain ⟨-, -, -, -, -, -, hall, -⟩ := claimNFTReward_ok_inv h'
        exact ⟨[], by rw [hall, List.append_nil]⟩

/-- C9 (witness): the invariant instantiated at the concrete reachable state
`stB2` (create `"q1"`, then one completion by `"A"`). -/
theorem reachable_currentMatchesHistory_witness :
    currentMatchesHistory stB2
    ∧ ∀ s', Step stB2 s' → ∃ l, s'.allCompletions = stB2.allCompletions ++ l :=
  reachable_currentMatchesHistory stB2
    (Relation.ReflTransGen.tail
      (Relation.ReflTransGen.single
        (Step.create initState stB1 "q1" "Intro" "ipfs://intro-nft" rfl))
      (Step.record stB1 stB2 "A" 100 "q1" 3 1 rfl))
